import Mathlib

/-
Verification of the content-extraction and task-generation pipeline of
crewai_course_review (src/crewai_course_review/main.py), as a shallow
embedding: the document parser, the code parser over a model of the Python
syntax tree, the task compiler, the orchestrator wrapper, the GitHub fetch
step, and the Markdown formatting tool.
-/

namespace CourseReview

/-! Document parser (parse_documentation). -/

/-- Python str.split on the newline character, modelled on the underlying
character list: splitting an empty text gives one empty line, and a trailing
newline yields a trailing empty line, as doc_content.split does in main.py. -/
def charListSplitNl : List Char → List (List Char)
  | [] => [[]]
  | c :: cs =>
    if c = '\n' then [] :: charListSplitNl cs
    else
      match charListSplitNl cs with
      | [] => [[c]]
      | h :: t => (c :: h) :: t

/-- The line list of a document, as doc_content.split in parse_documentation. -/
def pyLines (s : String) : List String :=
  (charListSplitNl s.data).map String.mk

/-- Python whitespace characters recognized by str.strip and by the regex
whitespace class, restricted to the ASCII range that the inputs use. -/
def isPyWs (c : Char) : Bool :=
  c = ' ' || c = '\t' || c = '\n' || c = '\r' || c = '\x0b' || c = '\x0c'

/-- The header test of parse_documentation: a regex match of one or more hash
marks followed by one whitespace character, anchored at the line start. -/
def isHeaderLine (line : String) : Bool :=
  match line.data with
  | '#' :: rest =>
    match rest.dropWhile (fun c => c = '#') with
    | c :: _ => isPyWs c
    | [] => false
  | _ => false

/-- Strip characters satisfying p from both ends of a character list, as the
Python str.strip method with a character-set argument does. -/
def stripEnds (p : Char → Bool) (cs : List Char) : List Char :=
  ((cs.dropWhile p).reverse.dropWhile p).reverse

/-- The header key of parse_documentation: the line stripped of leading and
trailing hash and space characters, then stripped of remaining leading and
trailing whitespace, exactly line.strip of hash-space followed by strip. -/
def headerKey (line : String) : String :=
  String.mk (stripEnds isPyWs (stripEnds (fun c => c = '#' || c = ' ') line.data))

/-- Assignment into a model of a Python dict as an ordered association list:
assigning to a present key updates it in place, a new key goes to the end. -/
def dictInsert {α : Type} (m : List (String × α)) (k : String) (v : α) : List (String × α) :=
  if m.any (fun p => p.1 = k) then m.map (fun p => if p.1 = k then (k, v) else p)
  else m ++ [(k, v)]

/-- Flush the open header into the parsed mapping. The guard is Python
truthiness of current_header: both None and the empty string skip the flush,
so a header whose stripped key is empty never produces an entry. -/
def flushHeader (parsed : List (String × String)) (cur : Option String)
    (text : List String) : List (String × String) :=
  match cur with
  | none => parsed
  | some h => if h = "" then parsed else dictInsert parsed h (String.intercalate "\n" text)

/-- The line loop of parse_documentation, with the three loop variables
parsed_content, current_header and current_text carried explicitly. -/
def parseDocLoop : List String → List (String × String) → Option String → List String →
    List (String × String)
  | [], parsed, cur, text => flushHeader parsed cur text
  | l :: ls, parsed, cur, text =>
    if isHeaderLine l then parseDocLoop ls (flushHeader parsed cur text) (some (headerKey l)) []
    else parseDocLoop ls parsed cur (text ++ [l])

/-- parse_documentation of main.py: scan the lines, open a section at each
header line, accumulate body lines, and flush each truthy open header. -/
def parse_documentation (doc : String) : List (String × String) :=
  parseDocLoop (pyLines doc) [] none []

/-- Section extraction as the specification words it, one pair per header
occurrence: the body attached to a header occurrence is the run of lines
between it and the next header line, joined with newlines, the last header
taking all remaining lines. Lines before the first header appear nowhere. -/
def claimSectionsAux : List String → String → List String → List (String × String)
  | [], h, acc => [(h, String.intercalate "\n" acc)]
  | l :: ls, h, acc =>
    if isHeaderLine l then
      (h, String.intercalate "\n" acc) :: claimSectionsAux ls (headerKey l) []
    else claimSectionsAux ls h (acc ++ [l])

/-- The per-header sections that the specification describes for a document:
empty when the document has no header line. -/
def claimSections : List String → List (String × String)
  | [] => []
  | l :: ls => if isHeaderLine l then claimSectionsAux ls (headerKey l) [] else claimSections ls

/-- The stripped keys of the header lines of a document, in order. -/
def headerKeys (ls : List String) : List String :=
  (ls.filter (fun l => isHeaderLine l)).map headerKey

/-- The key transform that claim C10 literally states: remove all leading and
trailing hash and space characters from the header line, and nothing else. -/
def claimKeyLiteral (line : String) : String :=
  String.mk (stripEnds (fun c => c = '#' || c = ' ') line.data)

/-- The key transform of the amended claim C10: strip hash and space
characters from both ends, then strip any remaining surrounding whitespace. -/
def claimKeyAmended (line : String) : String :=
  String.mk (stripEnds isPyWs (stripEnds (fun c => c = '#' || c = ' ') line.data))

/-! Code parser (parse_code) over a model of the Python syntax tree. -/

/-- A Python statement as the code parser sees it: a function definition, a
class definition, an expression statement that is a plain string literal
(the docstring form), or any other statement with its nested statements. -/
inductive PyStmt where
  | functionDef (name : String) (body : List PyStmt)
  | classDef (name : String) (body : List PyStmt)
  | exprStr (s : String)
  | other (children : List PyStmt)

/-- The child statements a node contributes to the walk queue. -/
def stmtChildren : PyStmt → List PyStmt
  | .functionDef _ b => b
  | .classDef _ b => b
  | .exprStr _ => []
  | .other c => c

/-- The node stream of the ast.walk generator: a breadth-first traversal
driven by a deque, popping from the front and extending at the back with the
children of the popped node. -/
def walkBFS : List PyStmt → List PyStmt
  | [] => []
  | n :: rest => n :: walkBFS (rest ++ stmtChildren n)
termination_by queue => sizeOf queue
decreasing_by
  have hap : ∀ (a b : List PyStmt), sizeOf (a ++ b) + 1 = sizeOf a + sizeOf b := by
    intro a b
    induction a with
    | nil => simp; omega
    | cons x xs ih => simp; omega
  have hch : sizeOf (stmtChildren n) < sizeOf n + 2 := by
    cases n <;> simp [stmtChildren] <;> omega
  have h1 := hap rest (stmtChildren n)
  simp
  omega

/-- One symbol record of the parsed-code mapping, a kind string together with
the optional docstring. -/
structure SymbolInfo where
  type : String
  docstring : Option String
deriving DecidableEq

/-- The docstring of a definition body as ast.get_docstring reports it: the
leading statement when that is a plain string expression, otherwise none.
The cleaning pass of get_docstring, which dedents the text, is not modelled;
the text is taken verbatim. -/
def get_docstring : List PyStmt → Option String
  | .exprStr s :: _ => some s
  | _ => none

/-- The symbol record a walked node contributes, when it is a function or a
class definition: its name, its kind string, and its leading docstring. -/
def defEntry : PyStmt → Option (String × SymbolInfo)
  | .functionDef nm body => some (nm, ⟨"Function", get_docstring body⟩)
  | .classDef nm body => some (nm, ⟨"Class", get_docstring body⟩)
  | _ => none

/-- parse_code of main.py, taking the outcome of ast.parse: a syntax error is
caught, reported, and degraded to the empty mapping; on a parsed tree every
walked definition node is assigned into the mapping under its name. -/
def parse_code (res : Except String (List PyStmt)) : List (String × SymbolInfo) :=
  match res with
  | .error _ => []
  | .ok tree =>
    (walkBFS tree).foldl
      (fun m n =>
        match defEntry n with
        | some (k, v) => dictInsert m k v
        | none => m) []

/-- The definition records met by the walk of a tree, in walk order. -/
def walkDefs (tree : List PyStmt) : List (String × SymbolInfo) :=
  (walkBFS tree).filterMap defEntry

/-- The depth-first, node-before-descendants traversal that claim C4 asserts
for the symbol walk, collecting definition records in declaration order. -/
def dfsDefs : List PyStmt → List (String × SymbolInfo)
  | [] => []
  | .functionDef nm body :: rest =>
    (nm, ⟨"Function", get_docstring body⟩) :: (dfsDefs body ++ dfsDefs rest)
  | .classDef nm body :: rest =>
    (nm, ⟨"Class", get_docstring body⟩) :: (dfsDefs body ++ dfsDefs rest)
  | .exprStr _ :: rest => dfsDefs rest
  | .other c :: rest => dfsDefs c ++ dfsDefs rest

/-- First-match lookup in the ordered association list; since dictInsert
keeps keys unique, this is the value a Python dict access returns. -/
def lookupD {α : Type} : List (String × α) → String → Option α
  | [], _ => none
  | p :: ps, k => if p.1 = k then some p.2 else lookupD ps k

/-- The first of two options that is populated. -/
def opOr {α : Type} (a b : Option α) : Option α :=
  match a with
  | some v => some v
  | none => b

/-- The value attached to the last occurrence of a key in a record list. -/
def findLast {α : Type} (xs : List (String × α)) (k : String) : Option α :=
  xs.foldl (fun r p => if p.1 = k then some p.2 else r) none

/-! Task compiler and orchestrator (ingest_into_crewai). -/

/-- The four role-specialized agents of ingest_into_crewai: the Documentation
Analyst, the Code Reviewer, the Inquiry and Suggestion Analyst, and the
Markdown Response Specialist, which the claims call the ResponseFormatter. -/
inductive AgentRole where
  | documentationAnalyst
  | codeReviewer
  | inquiryAnalyst
  | responseFormatter
deriving DecidableEq

/-- One compiled task: its description string and its bound agent. -/
structure ReviewTask where
  description : String
  agent : AgentRole
deriving DecidableEq

/-- One classified, parsed file as main builds it: the classified type
string, the parsed artifact (documentation sections or code symbols), and
the file name, mirroring the dict with keys type, content and name. -/
structure ParsedItem where
  type : String
  content : List (String × String) ⊕ List (String × SymbolInfo)
  name : String
deriving DecidableEq

/-- The body of the task-creation loop of ingest_into_crewai: three tasks
appended for a documentation item, three for a code item, none otherwise. -/
def ingestStep (tasks : List ReviewTask) (item : ParsedItem) : List ReviewTask :=
  if item.type = "documentation" then
    tasks ++ [⟨"Analyze " ++ item.name ++ ".", .documentationAnalyst⟩,
              ⟨"Formulate questions and suggestions for " ++ item.name ++ ".", .inquiryAnalyst⟩,
              ⟨"Provide Markdown responses for " ++ item.name ++ ".", .responseFormatter⟩]
  else if item.type = "code" then
    tasks ++ [⟨"Review code in " ++ item.name ++ ".", .codeReviewer⟩,
              ⟨"Formulate questions and suggestions for " ++ item.name ++ ".", .inquiryAnalyst⟩,
              ⟨"Provide Markdown responses for " ++ item.name ++ ".", .responseFormatter⟩]
  else tasks

/-- The task list ingest_into_crewai compiles from the parsed data, in input
order. -/
def ingest_tasks (parsed_data : List ParsedItem) : List ReviewTask :=
  parsed_data.foldl ingestStep []

/-- The three-task block the specification prescribes for one classified
file, keyed by its classified type. -/
def taskBlock (item : ParsedItem) : List ReviewTask :=
  if item.type = "documentation" then
    [⟨"Analyze " ++ item.name ++ ".", .documentationAnalyst⟩,
     ⟨"Formulate questions and suggestions for " ++ item.name ++ ".", .inquiryAnalyst⟩,
     ⟨"Provide Markdown responses for " ++ item.name ++ ".", .responseFormatter⟩]
  else
    [⟨"Review code in " ++ item.name ++ ".", .codeReviewer⟩,
     ⟨"Formulate questions and suggestions for " ++ item.name ++ ".", .inquiryAnalyst⟩,
     ⟨"Provide Markdown responses for " ++ item.name ++ ".", .responseFormatter⟩]

/-- The concatenation of the per-file blocks, in input order, as the
specification describes the compiled sequence. -/
def compiledBlocks : List ParsedItem → List ReviewTask
  | [] => []
  | p :: pd => taskBlock p ++ compiledBlocks pd

/-- Modelled from the spec: the kickoff method of the external crewai
library, which is not part of this repository. It executes the compiled
tasks strictly sequentially against the generative backend, collecting one
textual result per task in order, and the first backend failure fails the
whole run. -/
def crew_kickoff (backend : ReviewTask → Except String String) :
    List ReviewTask → Except String (List String)
  | [] => .ok []
  | t :: ts =>
    match backend t with
    | .error e => .error e
    | .ok r =>
      match crew_kickoff backend ts with
      | .error e => .error e
      | .ok rs => .ok (r :: rs)

/-- ingest_into_crewai of main.py: build the agents and the task list, run
the crew, and catch any exception of the run, printing the cause and
returning None; only a fully successful run returns the collected result. -/
def ingest_into_crewai (backend : ReviewTask → Except String String)
    (parsed_data : List ParsedItem) : Option (List String) :=
  match crew_kickoff backend (ingest_tasks parsed_data) with
  | .error _ => none
  | .ok r => some r

/-! Content fetcher (fetch_github_content). -/

/-- One entry of the top-level contents listing of the repository API. -/
structure RepoEntry where
  name : String
  path : String
  type : String
  download_url : String
deriving DecidableEq

/-- One HTTP response as the fetch step consumes it: a status code and the
response text. -/
structure HttpText where
  status : Nat
  text : String
deriving DecidableEq

/-- One fetched file record: name, path and content, as fetch_github_content
accumulates them. -/
structure RawFile where
  name : String
  path : String
  content : String
deriving DecidableEq

/-- The transport failure that raise_for_status raises, carrying the status. -/
structure TransportError where
  status : Nat
deriving DecidableEq

/-- The remote GitHub API as one fetch run sees it: the status and entry
list of the top-level contents call, and one response per download url. -/
structure GitHubApi where
  listingStatus : Nat
  listing : List RepoEntry
  download : String → HttpText

/-- The statuses on which raise_for_status of the requests library raises:
the client and server error codes, 400 and above. -/
def httpFails (status : Nat) : Bool := 400 ≤ status

/-- The per-item loop of fetch_github_content: entries of type file are
downloaded in listing order, each response is checked with
raise_for_status, and the first failing download aborts the whole loop. -/
def fetchFiles (api : GitHubApi) : List RepoEntry → Except TransportError (List RawFile)
  | [] => .ok []
  | item :: rest =>
    if item.type = "file" then
      if httpFails (api.download item.download_url).status then
        .error ⟨(api.download item.download_url).status⟩
      else
        match fetchFiles api rest with
        | .error e => .error e
        | .ok fs => .ok (⟨item.name, item.path, (api.download item.download_url).text⟩ :: fs)
    else fetchFiles api rest

/-- fetch_github_content of main.py: check the listing response with
raise_for_status, then download the file entries. The write of each fetched
text into the staging directory happens only after the list is complete and
is not modelled. -/
def fetch_github_content (api : GitHubApi) : Except TransportError (List RawFile) :=
  if httpFails api.listingStatus then .error ⟨api.listingStatus⟩
  else fetchFiles api api.listing

/-! Markdown formatting tool (markdown_formatter). -/

/-- The markdown_formatter tool: the literal Answer template applied to the
response string, a pure total function. -/
def markdown_formatter (response : String) : String := "**Answer:** " ++ response

/-! Concrete instances used by witnesses and counterexamples. -/

/-- The tree of scenario B of the specification: a function foo with a
docstring and a class Bar without one. -/
def scenarioBTree : List PyStmt :=
  [.functionDef "foo" [.exprStr "does foo"], .classDef "Bar" []]

/-- A tree with two definitions named x, one nested inside an earlier outer
function and one declared later at the top level; a breadth-first walk meets
the outer one first, a depth-first walk meets it last. -/
def nestedDupTree : List PyStmt :=
  [.functionDef "a" [.functionDef "x" [.exprStr "inner"]],
   .functionDef "x" [.exprStr "outer"]]

/-- A parsed documentation item for one Markdown file. -/
def docItem : ParsedItem :=
  ⟨"documentation", Sum.inl [("Overview", "text")], "README.md"⟩

/-- A parsed code item for one Python file. -/
def codeItem : ParsedItem :=
  ⟨"code", Sum.inr [("foo", ⟨"Function", some "does foo"⟩)], "main.py"⟩

/-- An API whose top-level listing call returns a 404. -/
def apiListingFail : GitHubApi := ⟨404, [], fun _ => ⟨200, ""⟩⟩

/-- An API whose listing succeeds but whose only file download returns 500. -/
def apiDownloadFail : GitHubApi :=
  ⟨200, [⟨"a.md", "a.md", "file", "u1"⟩], fun _ => ⟨500, ""⟩⟩

/-- An API with two file entries and one directory entry, all calls
succeeding. -/
def apiMixed : GitHubApi :=
  ⟨200,
   [⟨"a.md", "a.md", "file", "u1"⟩, ⟨"docs", "docs", "dir", "u2"⟩,
    ⟨"c.py", "c.py", "file", "u3"⟩],
   fun u => if u = "u1" then ⟨200, "A"⟩ else if u = "u3" then ⟨200, "C"⟩ else ⟨200, "D"⟩⟩

/-! Lemmas about the document parser. -/

/-- Splitting a character list without a newline gives that one line. -/
theorem charListSplitNl_no_nl (cs : List Char) (h : '\n' ∉ cs) :
    charListSplitNl cs = [cs] := by
  induction cs with
  | nil => rfl
  | cons c cs ih =>
    have hc : ¬ c = '\n' := fun hcc => h (by simp [hcc])
    have hcs : '\n' ∉ cs := fun hm => h (by simp [hm])
    simp only [charListSplitNl, if_neg hc, ih hcs]

/-- A string without a newline is its own single line. -/
theorem pyLines_single (s : String) (h : '\n' ∉ s.data) : pyLines s = [s] := by
  obtain ⟨cs⟩ := s
  simp [pyLines, charListSplitNl_no_nl cs h]

/-- Inserting a fresh key appends it at the end of the dict. -/
theorem dictInsert_fresh {α : Type} (m : List (String × α)) (k : String) (v : α)
    (h : m.any (fun p => p.1 = k) = false) : dictInsert m k v = m ++ [(k, v)] := by
  simp [dictInsert, h]

/-- The header keys of a list starting with a header line. -/
theorem headerKeys_cons_header (l : String) (ls : List String) (h : isHeaderLine l = true) :
    headerKeys (l :: ls) = headerKey l :: headerKeys ls := by
  simp [headerKeys, h]

/-- The header keys of a list starting with a non-header line. -/
theorem headerKeys_cons_other (l : String) (ls : List String) (h : isHeaderLine l = false) :
    headerKeys (l :: ls) = headerKeys ls := by
  simp [headerKeys, h]

/-- Running the parse loop with an open, nonempty header whose key and all
later header keys are fresh and pairwise distinct appends exactly the
sections the specification describes. -/
theorem parseDocLoop_open (ls : List String) :
    ∀ (parsed : List (String × String)) (h : String) (t : List String),
    h ≠ "" →
    parsed.any (fun p => p.1 = h) = false →
    (headerKeys ls).Nodup →
    (∀ k ∈ headerKeys ls, k ≠ "" ∧ k ≠ h ∧ parsed.any (fun p => p.1 = k) = false) →
    parseDocLoop ls parsed (some h) t = parsed ++ claimSectionsAux ls h t := by
  induction ls with
  | nil =>
    intro parsed h t hh hfresh _ _
    simp [parseDocLoop, claimSectionsAux, flushHeader, hh, dictInsert_fresh parsed h _ hfresh]
  | cons l ls ih =>
    intro parsed h t hh hfresh hnd hdisj
    by_cases hl : isHeaderLine l
    · rw [headerKeys_cons_header l ls hl] at hnd hdisj
      obtain ⟨hl1, hl2, hl3⟩ := hdisj (headerKey l) (by simp)
      have hstep : parseDocLoop (l :: ls) parsed (some h) t =
          parseDocLoop ls (flushHeader parsed (some h) t) (some (headerKey l)) [] := by
        simp [parseDocLoop, hl]
      have hflush : flushHeader parsed (some h) t =
          parsed ++ [(h, String.intercalate "\n" t)] := by
        simp [flushHeader, hh, dictInsert_fresh parsed h _ hfresh]
      have hnotmem : headerKey l ∉ headerKeys ls := (List.nodup_cons.mp hnd).1
      have hfresh' : (parsed ++ [(h, String.intercalate "\n" t)]).any
          (fun p => p.1 = headerKey l) = false := by
        simp [List.any_append, hl3]
        exact fun hhk => hl2 hhk.symm
      have hdisj' : ∀ k ∈ headerKeys ls, k ≠ "" ∧ k ≠ headerKey l ∧
          (parsed ++ [(h, String.intercalate "\n" t)]).any (fun p => p.1 = k) = false := by
        intro k hk
        obtain ⟨hk1, hk2, hk3⟩ := hdisj k (by simp [hk])
        refine ⟨hk1, fun hkl => hnotmem (hkl ▸ hk), ?_⟩
        simp [List.any_append, hk3]
        exact fun hhk => hk2 hhk.symm
      rw [hstep, hflush,
        ih (parsed ++ [(h, String.intercalate "\n" t)]) (headerKey l) [] hl1 hfresh'
          (List.nodup_cons.mp hnd).2 hdisj']
      simp [claimSectionsAux, hl]
    · rw [headerKeys_cons_other l ls (by simpa using hl)] at hnd hdisj
      have hstep : parseDocLoop (l :: ls) parsed (some h) t =
          parseDocLoop ls parsed (some h) (t ++ [l]) := by
        simp [parseDocLoop, hl]
      rw [hstep, ih parsed h (t ++ [l]) hh hfresh hnd hdisj]
      simp [claimSectionsAux, hl]

/-- Running the parse loop from the initial state, when the header keys of
the document are pairwise distinct and nonempty, produces exactly the
sections the specification describes, whatever text was accumulated. -/
theorem parseDocLoop_none (ls : List String) :
    ∀ t : List String,
    (headerKeys ls).Nodup →
    (∀ k ∈ headerKeys ls, k ≠ "") →
    parseDocLoop ls [] none t = claimSections ls := by
  induction ls with
  | nil => intro t _ _; simp [parseDocLoop, claimSections, flushHeader]
  | cons l ls ih =>
    intro t hnd hne
    by_cases hl : isHeaderLine l
    · rw [headerKeys_cons_header l ls hl] at hnd hne
      have h1 : headerKey l ≠ "" := hne _ (by simp)
      have hstep : parseDocLoop (l :: ls) [] none t =
          parseDocLoop ls [] (some (headerKey l)) [] := by
        simp [parseDocLoop, hl, flushHeader]
      have hnotmem : headerKey l ∉ headerKeys ls := (List.nodup_cons.mp hnd).1
      rw [hstep, parseDocLoop_open ls [] (headerKey l) [] h1 (by simp)
        (List.nodup_cons.mp hnd).2 ?_]
      · simp [claimSections, hl]
      · intro k hk
        exact ⟨hne k (by simp [hk]), fun hkl => hnotmem (hkl ▸ hk), by simp⟩
    · rw [headerKeys_cons_other l ls (by simpa using hl)] at hnd hne
      have hstep : parseDocLoop (l :: ls) [] none t =
          parseDocLoop ls [] none (t ++ [l]) := by
        simp [parseDocLoop, hl]
      rw [hstep, ih (t ++ [l]) hnd hne]
      simp [claimSections, hl]

/-- The keys of the specification sections under an open header are that
header followed by the remaining header keys, in order. -/
theorem claimSectionsAux_keys (ls : List String) :
    ∀ (h : String) (acc : List String),
    (claimSectionsAux ls h acc).map Prod.fst = h :: headerKeys ls := by
  induction ls with
  | nil => intro h acc; simp [claimSectionsAux, headerKeys]
  | cons l ls ih =>
    intro h acc
    by_cases hl : isHeaderLine l
    · simp [claimSectionsAux, hl, headerKeys_cons_header l ls hl, ih]
    · rw [headerKeys_cons_other l ls (by simpa using hl)]
      simp only [claimSectionsAux, hl]
      simp [ih]

/-- The keys of the specification sections are the header keys, in order. -/
theorem claimSections_keys (ls : List String) :
    (claimSections ls).map Prod.fst = headerKeys ls := by
  induction ls with
  | nil => simp [claimSections, headerKeys]
  | cons l ls ih =>
    by_cases hl : isHeaderLine l
    · simp [claimSections, hl, claimSectionsAux_keys, headerKeys_cons_header l ls hl]
    · rw [headerKeys_cons_other l ls (by simpa using hl)]
      simp only [claimSections, hl]
      simpa using ih

/-- A document without a header line parses to the empty mapping. -/
theorem parseDocLoop_noHeaders (ls : List String) :
    ∀ t : List String, (∀ l ∈ ls, isHeaderLine l = false) →
    parseDocLoop ls [] none t = [] := by
  induction ls with
  | nil => intro t _; simp [parseDocLoop, flushHeader]
  | cons l ls ih =>
    intro t hall
    have hl : isHeaderLine l = false := hall l (by simp)
    have hstep : parseDocLoop (l :: ls) [] none t =
        parseDocLoop ls [] none (t ++ [l]) := by
      simp [parseDocLoop, hl]
    rw [hstep]
    exact ih _ (fun x hx => hall x (by simp [hx]))

/-- Lines before the first header line never reach the result: the parse of
a document equals the parse of its lines from the first header on. -/
theorem parseDocLoop_dropLeading (ls : List String) :
    ∀ t : List String,
    parseDocLoop ls [] none t =
      parseDocLoop (ls.dropWhile (fun l => !isHeaderLine l)) [] none [] := by
  induction ls with
  | nil => intro t; simp [parseDocLoop, flushHeader]
  | cons l ls ih =>
    intro t
    by_cases hl : isHeaderLine l
    · simp [parseDocLoop, hl, List.dropWhile_cons, flushHeader]
    · have hstep : parseDocLoop (l :: ls) [] none t =
          parseDocLoop ls [] none (t ++ [l]) := by
        simp [parseDocLoop, hl]
      rw [hstep, ih (t ++ [l])]
      simp [List.dropWhile_cons, hl]

/-! Claims C2, C6 and C10 about parse_documentation. -/

/-- C2, corrected. The frozen claim fails when two header lines share one
stripped key, or when a stripped key is empty: amended to require that the
stripped header keys be pairwise distinct and nonempty. Under that
precondition, parse_documentation of a Markdown input with at least one
header line returns exactly the per-header sections the claim describes,
key list equal to the header texts in order of occurrence, and each value
the lines between that header and the next, joined with newlines, the last
header taking all remaining lines. -/
theorem c2_parse_documentation_amended (doc : String)
    (_hex : ∃ l ∈ pyLines doc, isHeaderLine l = true)
    (hne : ∀ k ∈ headerKeys (pyLines doc), k ≠ "")
    (hnd : (headerKeys (pyLines doc)).Nodup) :
    parse_documentation doc = claimSections (pyLines doc) ∧
    (parse_documentation doc).map Prod.fst = headerKeys (pyLines doc) := by
  have he : parse_documentation doc = claimSections (pyLines doc) :=
    parseDocLoop_none (pyLines doc) [] hnd hne
  exact ⟨he, by rw [he, claimSections_keys]⟩

/-- Witness for C2: a two-header document with distinct nonempty keys, the
hypotheses checked by evaluation and the conclusion from the theorem. -/
theorem c2_parse_documentation_witness :
    (∃ l ∈ pyLines "# A\nx\ny\n## B C\nz", isHeaderLine l = true) ∧
    (∀ k ∈ headerKeys (pyLines "# A\nx\ny\n## B C\nz"), k ≠ "") ∧
    (headerKeys (pyLines "# A\nx\ny\n## B C\nz")).Nodup ∧
    parse_documentation "# A\nx\ny\n## B C\nz" = claimSections (pyLines "# A\nx\ny\n## B C\nz") ∧
    parse_documentation "# A\nx\ny\n## B C\nz" = [("A", "x\ny"), ("B C", "z")] :=
  ⟨by decide, by decide, by decide,
   (c2_parse_documentation_amended "# A\nx\ny\n## B C\nz" (by decide) (by decide) (by decide)).1,
   by decide⟩

/-- Counterexample to C2 as frozen. With duplicate header texts the single
mapping slot for the shared key cannot equal the between-lines text of each
occurrence: the first occurrence of header A has body x, but the returned
mapping carries y. A second input shows a header whose stripped key is
empty being dropped entirely, against the claimed key set. -/
theorem c2_parse_documentation_counterexample :
    parse_documentation "# A\nx\n# A\ny" = [("A", "y")] ∧
    claimSections (pyLines "# A\nx\n# A\ny") = [("A", "x"), ("A", "y")] ∧
    parse_documentation "# A\nx\n# A\ny" ≠ claimSections (pyLines "# A\nx\n# A\ny") ∧
    parse_documentation "# \nz" = [] ∧
    claimSections (pyLines "# \nz") = [("", "z")] :=
  ⟨by decide, by decide, by decide, by decide, by decide⟩

/-- C6: a Markdown input with zero header-marker lines parses to the empty
mapping, and in general the lines preceding the first header line are never
flushed: the parse equals the parse of the suffix starting at the first
header line. -/
theorem c6_no_headers (doc : String) :
    ((∀ l ∈ pyLines doc, isHeaderLine l = false) → parse_documentation doc = []) ∧
    parse_documentation doc =
      parseDocLoop ((pyLines doc).dropWhile (fun l => !isHeaderLine l)) [] none [] :=
  ⟨fun h => parseDocLoop_noHeaders (pyLines doc) [] h,
   parseDocLoop_dropLeading (pyLines doc) []⟩

/-- Witness for C6: a headerless two-line document yields the empty mapping. -/
theorem c6_no_headers_witness :
    (∀ l ∈ pyLines "hello\nworld", isHeaderLine l = false) ∧
    parse_documentation "hello\nworld" = [] :=
  ⟨by decide, (c6_no_headers "hello\nworld").1 (by decide)⟩

/-- C10, corrected. The frozen claim describes the stored key as the header
line with leading and trailing hash and space characters removed; the code
additionally strips remaining surrounding whitespace such as tabs. Amended:
the stored key is the line stripped of hash and space characters at both
ends and then stripped of surrounding whitespace, and a header line whose
stripped key is nonempty and that is the whole document stores exactly that
key with an empty body. -/
theorem c10_header_key_amended (line : String)
    (hh : isHeaderLine line = true)
    (hnl : '\n' ∉ line.data)
    (hne : headerKey line ≠ "") :
    parse_documentation line = [(claimKeyAmended line, "")] := by
  have h1 : pyLines line = [line] := pyLines_single line hnl
  have h2 : claimKeyAmended line = headerKey line := rfl
  rw [h2]
  show parseDocLoop (pyLines line) [] none [] = [(headerKey line, "")]
  rw [h1]
  have h3 : String.intercalate "\n" [] = "" := rfl
  simp [parseDocLoop, hh, flushHeader, hne, dictInsert, h3]

/-- Witness for C10: the closed ATX header of the claim, with both markers
stripped, yields the key Title. -/
theorem c10_header_key_witness :
    isHeaderLine "## Title ##" = true ∧ '\n' ∉ ("## Title ##").data ∧
    headerKey "## Title ##" ≠ "" ∧
    parse_documentation "## Title ##" = [(claimKeyAmended "## Title ##", "")] ∧
    claimKeyAmended "## Title ##" = "Title" :=
  ⟨by decide, by decide, by decide,
   c10_header_key_amended "## Title ##" (by decide) (by decide) (by decide),
   by decide⟩

/-- Counterexample to C10 as frozen: for the header line of the document
containing a trailing tab, removing only hash and space characters leaves
the tab in place, but the stored key has it stripped by the second strip. -/
theorem c10_header_key_counterexample :
    isHeaderLine "# Title\t" = true ∧
    parse_documentation "# Title\t\nx" = [("Title", "x")] ∧
    claimKeyLiteral "# Title\t" = "Title\t" ∧
    ("Title" : String) ≠ "Title\t" :=
  ⟨by decide, by decide, by decide, by decide⟩

/-! Lemmas about the code parser. -/

/-- The walk of an empty queue is empty. -/
theorem walkBFS_nil : walkBFS [] = [] := by simp [walkBFS]

/-- One step of the walk: pop the front node, push its children. -/
theorem walkBFS_cons (n : PyStmt) (rest : List PyStmt) :
    walkBFS (n :: rest) = n :: walkBFS (rest ++ stmtChildren n) := by
  conv_lhs => rw [walkBFS.eq_def]

/-- First-match lookup distributes over append through the option choice. -/
theorem lookupD_append {α : Type} (m m2 : List (String × α)) (k : String) :
    lookupD (m ++ m2) k = opOr (lookupD m k) (lookupD m2 k) := by
  induction m with
  | nil => simp [lookupD, opOr]
  | cons p m ih =>
    by_cases hp : p.1 = k
    · simp [lookupD, hp, opOr]
    · simp [lookupD, hp, ih]

/-- A key that no entry carries looks up to none. -/
theorem lookupD_notfound {α : Type} (m : List (String × α)) (k : String)
    (h : m.any (fun p => p.1 = k) = false) : lookupD m k = none := by
  induction m with
  | nil => rfl
  | cons p m ih =>
    simp only [List.any_cons, Bool.or_eq_false_iff] at h
    simp only [lookupD, if_neg (by simpa using h.1)]
    exact ih h.2

/-- Entries with other keys are unaffected by an in-place overwrite. -/
theorem lookupD_map_ne {α : Type} (m : List (String × α)) (k k' : String) (v : α)
    (hne : k' ≠ k) :
    lookupD (m.map (fun p => if p.1 = k then (k, v) else p)) k' = lookupD m k' := by
  induction m with
  | nil => rfl
  | cons p m ih =>
    by_cases hp : p.1 = k
    · have hk : ¬ k = k' := fun h => hne h.symm
      simp [lookupD, hp, hk, ih]
    · simp only [List.map_cons, if_neg hp, lookupD, ih]

/-- An in-place overwrite of a present key is seen by lookup. -/
theorem lookupD_overwrite {α : Type} (m : List (String × α)) (k : String) (v : α) :
    m.any (fun p => p.1 = k) = true →
    lookupD (m.map (fun p => if p.1 = k then (k, v) else p)) k = some v := by
  induction m with
  | nil => intro h; simp at h
  | cons p m ih =>
    intro h
    by_cases hp : p.1 = k
    · simp [lookupD, hp]
    · simp only [List.map_cons, if_neg hp, lookupD, if_neg hp]
      apply ih
      simpa [hp] using h

/-- Lookup after a dict assignment: the assigned key reads the new value,
every other key reads as before. -/
theorem lookupD_dictInsert {α : Type} (m : List (String × α)) (k : String) (v : α)
    (k' : String) :
    lookupD (dictInsert m k v) k' = if k' = k then some v else lookupD m k' := by
  by_cases hk : k' = k
  · subst hk
    rw [if_pos rfl]
    cases hany : m.any (fun p => p.1 = k') with
    | true => rw [dictInsert, if_pos hany, lookupD_overwrite m k' v hany]
    | false =>
      rw [dictInsert_fresh m k' v hany, lookupD_append, lookupD_notfound m k' hany]
      simp [lookupD, opOr]
  · rw [if_neg hk]
    cases hany : m.any (fun p => p.1 = k) with
    | true => rw [dictInsert, if_pos hany, lookupD_map_ne m k k' v hk]
    | false =>
      rw [dictInsert_fresh m k v hany, lookupD_append]
      have hk2 : ¬ k = k' := fun h => hk h.symm
      have : lookupD [(k, v)] k' = none := by simp [lookupD, hk2]
      rw [this]
      cases lookupD m k' <;> simp [opOr]

/-- Folding the last-match update from any start value factors through the
last match of the list. -/
theorem findLast_foldl {α : Type} (xs : List (String × α)) (k : String) :
    ∀ r0 : Option α,
    xs.foldl (fun r p => if p.1 = k then some p.2 else r) r0 = opOr (findLast xs k) r0 := by
  induction xs with
  | nil => intro r0; simp [findLast, opOr]
  | cons p xs ih =>
    intro r0
    have hc : findLast (p :: xs) k = opOr (findLast xs k) (if p.1 = k then some p.2 else none) := by
      show (p :: xs).foldl (fun r q => if q.1 = k then some q.2 else r) none = _
      rw [List.foldl_cons, ih]
    rw [List.foldl_cons, ih, hc]
    cases findLast xs k <;> by_cases hp : p.1 = k <;> simp [opOr, hp]

/-- The last match of a record list with its head split off. -/
theorem findLast_cons {α : Type} (p : String × α) (xs : List (String × α)) (k : String) :
    findLast (p :: xs) k = opOr (findLast xs k) (if p.1 = k then some p.2 else none) := by
  show (p :: xs).foldl (fun r q => if q.1 = k then some q.2 else r) none = _
  rw [List.foldl_cons, findLast_foldl]

/-- Lookup in the dict built by the parse-code fold over any node list: the
last walked definition of a name wins, and names never defined fall back to
the accumulator. -/
theorem lookupD_codeFold (ns : List PyStmt) :
    ∀ (acc : List (String × SymbolInfo)) (k : String),
    lookupD (ns.foldl
      (fun m n => match defEntry n with | some (q, v) => dictInsert m q v | none => m) acc) k
      = opOr (findLast (ns.filterMap defEntry) k) (lookupD acc k) := by
  induction ns with
  | nil => intro acc k; simp [findLast, opOr]
  | cons n ns ih =>
    intro acc k
    rw [List.foldl_cons]
    cases hde : defEntry n with
    | none => simp only [hde, List.filterMap_cons, ih]
    | some kv =>
      obtain ⟨k0, v0⟩ := kv
      simp only [hde, List.filterMap_cons]
      rw [ih (dictInsert acc k0 v0) k, lookupD_dictInsert, findLast_cons]
      cases findLast (ns.filterMap defEntry) k with
      | some v => simp [opOr]
      | none =>
        by_cases hk : k = k0
        · simp [opOr, hk]
        · have hk2 : ¬ k0 = k := fun h => hk h.symm
          simp [opOr, hk, hk2]

/-- The parse-code fold with pairwise distinct definition names, all fresh
for the accumulator, appends one record per walked definition. -/
theorem codeFold_eq (ns : List PyStmt) :
    ∀ acc : List (String × SymbolInfo),
    ((ns.filterMap defEntry).map Prod.fst).Nodup →
    (∀ k ∈ (ns.filterMap defEntry).map Prod.fst, acc.any (fun p => p.1 = k) = false) →
    ns.foldl
      (fun m n => match defEntry n with | some (q, v) => dictInsert m q v | none => m) acc
      = acc ++ ns.filterMap defEntry := by
  induction ns with
  | nil => intro acc _ _; simp
  | cons n ns ih =>
    intro acc hnd hfr
    rw [List.foldl_cons]
    cases hde : defEntry n with
    | none =>
      simp only [hde]
      simp only [List.filterMap_cons, hde] at hnd hfr ⊢
      exact ih acc hnd hfr
    | some kv =>
      obtain ⟨k0, v0⟩ := kv
      simp only [hde]
      simp only [List.filterMap_cons, hde, List.map_cons, List.nodup_cons] at hnd hfr ⊢
      have hfr0 : acc.any (fun p => p.1 = k0) = false := hfr k0 (by simp)
      have hins : dictInsert acc k0 v0 = acc ++ [(k0, v0)] := dictInsert_fresh acc k0 v0 hfr0
      have hfr' : ∀ k ∈ (ns.filterMap defEntry).map Prod.fst,
          (acc ++ [(k0, v0)]).any (fun p => p.1 = k) = false := by
        intro k hk
        have h1 : acc.any (fun p => p.1 = k) = false := hfr k (by simp [hk])
        have h2 : k0 ≠ k := fun h => hnd.1 (h ▸ hk)
        simp [List.any_append, h1]
        exact h2
      rw [hins, ih (acc ++ [(k0, v0)]) hnd.2 hfr']
      simp

/-! Claims C3, C4 and C5 about parse_code. -/

/-- C3: on a successfully parsed tree whose definition names are pairwise
distinct, which is the uniqueness invariant the specification declares for
one file, parse_code returns exactly one record per walked function or
class definition, keyed by its name, kinded Function or Class, and carrying
its leading docstring when present and none otherwise, which is what the
walked definition records spell out. -/
theorem c3_parse_code_entries (tree : List PyStmt)
    (hnd : ((walkDefs tree).map Prod.fst).Nodup) :
    parse_code (Except.ok tree) = walkDefs tree := by
  simp only [parse_code]
  rw [codeFold_eq (walkBFS tree) [] hnd (fun k _ => rfl)]
  simp [walkDefs]

/-- Witness for C3, scenario B of the specification: a function foo with
docstring does foo and a class Bar without one. -/
theorem c3_parse_code_entries_witness :
    ((walkDefs scenarioBTree).map Prod.fst).Nodup ∧
    parse_code (Except.ok scenarioBTree) = walkDefs scenarioBTree ∧
    parse_code (Except.ok scenarioBTree) =
      [("foo", ⟨"Function", some "does foo"⟩), ("Bar", ⟨"Class", none⟩)] := by
  have hw : walkBFS scenarioBTree =
      [PyStmt.functionDef "foo" [PyStmt.exprStr "does foo"], PyStmt.classDef "Bar" [],
       PyStmt.exprStr "does foo"] := by
    simp [scenarioBTree, walkBFS_cons, walkBFS_nil, stmtChildren]
  have hnd : ((walkDefs scenarioBTree).map Prod.fst).Nodup := by
    rw [walkDefs, hw]
    decide
  refine ⟨hnd, c3_parse_code_entries scenarioBTree hnd, ?_⟩
  simp only [parse_code, hw]
  decide

/-- C4, corrected. The walk of parse_code is ast.walk, a breadth-first
traversal: the record stored for a repeated name is the one met last in
breadth-first order, outer definitions before nested ones, which for
definitions at equal nesting depth is declaration order but which a nested
duplicate reverses. On every tree and name, lookup in the parsed mapping
equals the last walked definition record of that name. -/
theorem c4_duplicate_overwrite_amended (tree : List PyStmt) (nm : String) :
    lookupD (parse_code (Except.ok tree)) nm = findLast (walkDefs tree) nm := by
  simp only [parse_code, walkDefs]
  rw [lookupD_codeFold (walkBFS tree) [] nm]
  cases findLast ((walkBFS tree).filterMap defEntry) nm <;> simp [opOr, lookupD]

/-- Counterexample to C4 as frozen: in a tree with a function x nested in an
earlier outer function and another function x declared later at top level,
the later definition in declaration order carries docstring outer, yet the
mapping stores the nested one with docstring inner, because the
breadth-first walk meets the top-level x before the nested x. -/
theorem c4_duplicate_overwrite_counterexample :
    lookupD (parse_code (Except.ok nestedDupTree)) "x" =
      some ⟨"Function", some "inner"⟩ ∧
    findLast (dfsDefs nestedDupTree) "x" = some ⟨"Function", some "outer"⟩ ∧
    some (⟨"Function", some "inner"⟩ : SymbolInfo) ≠
      some (⟨"Function", some "outer"⟩ : SymbolInfo) := by
  have hw : walkBFS nestedDupTree =
      [PyStmt.functionDef "a" [PyStmt.functionDef "x" [PyStmt.exprStr "inner"]],
       PyStmt.functionDef "x" [PyStmt.exprStr "outer"],
       PyStmt.functionDef "x" [PyStmt.exprStr "inner"],
       PyStmt.exprStr "outer", PyStmt.exprStr "inner"] := by
    simp [nestedDupTree, walkBFS_cons, walkBFS_nil, stmtChildren]
  have hd : dfsDefs nestedDupTree =
      [("a", ⟨"Function", none⟩), ("x", ⟨"Function", some "inner"⟩),
       ("x", ⟨"Function", some "outer"⟩)] := by
    simp [nestedDupTree, dfsDefs, get_docstring]
  refine ⟨?_, by rw [hd]; decide, by decide⟩
  simp only [parse_code, hw]
  decide

/-- C5: a syntax error from ast.parse is caught inside parse_code, which
prints the diagnostic and returns the empty mapping; in this total model of
the function no exception reaches the caller for any error value. -/
theorem c5_parse_code_invalid (e : String) : parse_code (Except.error e) = [] := rfl

/-! Lemmas about the task compiler. -/

/-- On a classified item the loop body appends exactly its three-task block. -/
theorem ingestStep_block (tasks : List ReviewTask) (item : ParsedItem)
    (h : item.type = "documentation" ∨ item.type = "code") :
    ingestStep tasks item = tasks ++ taskBlock item := by
  rcases h with h | h <;> simp [ingestStep, taskBlock, h]

/-- The task loop over classified items from any accumulator appends the
concatenated per-file blocks. -/
theorem foldl_ingestStep (pd : List ParsedItem) :
    ∀ acc : List ReviewTask,
    (∀ item ∈ pd, item.type = "documentation" ∨ item.type = "code") →
    pd.foldl ingestStep acc = acc ++ compiledBlocks pd := by
  induction pd with
  | nil => intro acc _; simp [compiledBlocks]
  | cons p pd ih =>
    intro acc h
    rw [List.foldl_cons, ingestStep_block acc p (h p (by simp)),
      ih (acc ++ taskBlock p) (fun item hi => h item (by simp [hi]))]
    simp [compiledBlocks]

/-- Every per-file block holds exactly three tasks. -/
theorem taskBlock_length (item : ParsedItem) : (taskBlock item).length = 3 := by
  by_cases h : item.type = "documentation" <;> simp [taskBlock, h]

/-- The concatenated blocks hold three tasks per input file. -/
theorem compiledBlocks_length (pd : List ParsedItem) :
    (compiledBlocks pd).length = 3 * pd.length := by
  induction pd with
  | nil => simp [compiledBlocks]
  | cons p pd ih =>
    simp [compiledBlocks, taskBlock_length, ih]
    ring

/-- The i-th three-task slice of the concatenated blocks is the block of the
i-th input file. -/
theorem compiledBlocks_slice (pd : List ParsedItem) :
    ∀ (i : Nat) (hi : i < pd.length),
    ((compiledBlocks pd).drop (3 * i)).take 3 = taskBlock (pd.get ⟨i, hi⟩) := by
  induction pd with
  | nil => intro i hi; simp at hi
  | cons p pd ih =>
    intro i hi
    cases i with
    | zero =>
      by_cases hp : p.type = "documentation" <;>
        simp [compiledBlocks, taskBlock, hp]
    | succ j =>
      have h3 : 3 * (j + 1) = 3 * j + 1 + 1 + 1 := by ring
      have hj : j < pd.length := by simpa using hi
      by_cases hp : p.type = "documentation" <;>
        · simp only [compiledBlocks, taskBlock, hp, if_true, if_false, List.cons_append,
            List.nil_append, h3, List.drop_succ_cons]
          exact ih j hj

/-! Claim C1 about the task compiler. -/

/-- C1: on a list of N classified files, each of classified type
documentation or code, ingest_into_crewai compiles exactly the concatenation
of the per-file blocks in input order, hence exactly three times N tasks;
the i-th contiguous three-task slice is the block of the i-th file, and a
block's agent roles are DocumentationAnalyst, InquiryAnalyst,
ResponseFormatter for a documentation file, and CodeReviewer,
InquiryAnalyst, ResponseFormatter for a code file. -/
theorem c1_task_compilation (pd : List ParsedItem)
    (h : ∀ item ∈ pd, item.type = "documentation" ∨ item.type = "code") :
    ingest_tasks pd = compiledBlocks pd ∧
    (ingest_tasks pd).length = 3 * pd.length ∧
    (∀ (i : Nat) (hi : i < pd.length),
      ((ingest_tasks pd).drop (3 * i)).take 3 = taskBlock (pd.get ⟨i, hi⟩)) ∧
    (∀ item : ParsedItem, (taskBlock item).map ReviewTask.agent =
      if item.type = "documentation" then
        [AgentRole.documentationAnalyst, AgentRole.inquiryAnalyst, AgentRole.responseFormatter]
      else
        [AgentRole.codeReviewer, AgentRole.inquiryAnalyst, AgentRole.responseFormatter]) := by
  have he : ingest_tasks pd = compiledBlocks pd := by
    rw [ingest_tasks, foldl_ingestStep pd [] h]
    simp
  refine ⟨he, ?_, ?_, ?_⟩
  · rw [he, compiledBlocks_length]
  · intro i hi
    rw [he]
    exact compiledBlocks_slice pd i hi
  · intro item
    by_cases hp : item.type = "documentation" <;> simp [taskBlock, hp]

/-- Witness for C1: one documentation file followed by one code file yields
the six expected tasks in order. -/
theorem c1_task_compilation_witness :
    (∀ item ∈ [docItem, codeItem], item.type = "documentation" ∨ item.type = "code") ∧
    ingest_tasks [docItem, codeItem] = compiledBlocks [docItem, codeItem] ∧
    (ingest_tasks [docItem, codeItem]).length =
      3 * ([docItem, codeItem] : List ParsedItem).length ∧
    ((ingest_tasks [docItem, codeItem]).drop (3 * 1)).take 3 =
      taskBlock (([docItem, codeItem] : List ParsedItem).get ⟨1, by decide⟩) ∧
    ingest_tasks [docItem, codeItem] =
      [⟨"Analyze README.md.", .documentationAnalyst⟩,
       ⟨"Formulate questions and suggestions for README.md.", .inquiryAnalyst⟩,
       ⟨"Provide Markdown responses for README.md.", .responseFormatter⟩,
       ⟨"Review code in main.py.", .codeReviewer⟩,
       ⟨"Formulate questions and suggestions for main.py.", .inquiryAnalyst⟩,
       ⟨"Provide Markdown responses for main.py.", .responseFormatter⟩] :=
  ⟨by decide,
   (c1_task_compilation [docItem, codeItem] (by decide)).1,
   (c1_task_compilation [docItem, codeItem] (by decide)).2.1,
   (c1_task_compilation [docItem, codeItem] (by decide)).2.2.1 1 (by decide),
   by decide⟩

/-! Claim C7 about the orchestrator. -/

/-- A failing task makes the whole sequential kickoff fail. -/
theorem crew_kickoff_error (backend : ReviewTask → Except String String)
    (ts : List ReviewTask) :
    (∃ t ∈ ts, ∃ e, backend t = Except.error e) →
    ∃ e, crew_kickoff backend ts = Except.error e := by
  induction ts with
  | nil => rintro ⟨t, ht, _⟩; simp at ht
  | cons t ts ih =>
    rintro ⟨t', ht', e', he'⟩
    cases hb : backend t with
    | error e => exact ⟨e, by simp [crew_kickoff, hb]⟩
    | ok r =>
      have hrest : ∃ x ∈ ts, ∃ e, backend x = Except.error e := by
        rcases List.mem_cons.mp ht' with h | h
        · rw [h, hb] at he'; cases he'
        · exact ⟨t', h, e', he'⟩
      obtain ⟨e, he⟩ := ih hrest
      exact ⟨e, by simp [crew_kickoff, hb, he]⟩

/-- C7: when any compiled task fails against the backend, the orchestrator
run of ingest_into_crewai returns no result at all, never a partial report;
the exception is caught at the top level, where its cause is printed. -/
theorem c7_orchestrator_failure (backend : ReviewTask → Except String String)
    (pd : List ParsedItem)
    (h : ∃ t ∈ ingest_tasks pd, ∃ e, backend t = Except.error e) :
    ingest_into_crewai backend pd = none := by
  obtain ⟨e, he⟩ := crew_kickoff_error backend (ingest_tasks pd) h
  simp [ingest_into_crewai, he]

/-- Witness for C7: a backend failing every task makes the run of one
documentation item return none. -/
theorem c7_orchestrator_failure_witness :
    (∃ t ∈ ingest_tasks [docItem], ∃ e,
      (fun _ : ReviewTask => (Except.error "backend failure" : Except String String)) t =
        Except.error e) ∧
    ingest_into_crewai (fun _ => Except.error "backend failure") [docItem] = none :=
  ⟨⟨⟨"Analyze README.md.", .documentationAnalyst⟩, by decide, "backend failure", rfl⟩,
   c7_orchestrator_failure (fun _ => Except.error "backend failure") [docItem]
     ⟨⟨"Analyze README.md.", .documentationAnalyst⟩, by decide, "backend failure", rfl⟩⟩

/-! Claim C8 about the content fetcher. -/

/-- A failing download of a file entry makes the whole download loop fail. -/
theorem fetchFiles_error (api : GitHubApi) (items : List RepoEntry) :
    (∃ item ∈ items, item.type = "file" ∧
      httpFails (api.download item.download_url).status = true) →
    ∃ e, fetchFiles api items = Except.error e := by
  induction items with
  | nil => rintro ⟨item, hm, _⟩; simp at hm
  | cons item rest ih =>
    rintro ⟨it, hm, hf, hd⟩
    by_cases hfile : item.type = "file"
    · cases hst : httpFails (api.download item.download_url).status with
      | true =>
        exact ⟨⟨(api.download item.download_url).status⟩, by
          simp [fetchFiles, hfile, hst]⟩
      | false =>
        have hrest : ∃ x ∈ rest, x.type = "file" ∧
            httpFails (api.download x.download_url).status = true := by
          rcases List.mem_cons.mp hm with h | h
          · subst h
            simp [hd] at hst
          · exact ⟨it, h, hf, hd⟩
        obtain ⟨e, he⟩ := ih hrest
        refine ⟨e, ?_⟩
        simp [fetchFiles, hfile, hst, he]
    · have hrest : ∃ x ∈ rest, x.type = "file" ∧
          httpFails (api.download x.download_url).status = true := by
        rcases List.mem_cons.mp hm with h | h
        · rw [h] at hf; exact absurd hf hfile
        · exact ⟨it, h, hf, hd⟩
      obtain ⟨e, he⟩ := ih hrest
      exact ⟨e, by simp [fetchFiles, hfile, he]⟩

/-- A successful download loop returns exactly the file entries, in listing
order, with their downloaded texts; entries of other types contribute
nothing. -/
theorem fetchFiles_ok (api : GitHubApi) (items : List RepoEntry) :
    ∀ fs, fetchFiles api items = Except.ok fs →
    fs = (items.filter (fun item => item.type = "file")).map
      (fun item => ⟨item.name, item.path, (api.download item.download_url).text⟩) := by
  induction items with
  | nil => intro fs h; simp [fetchFiles] at h; simp [← h]
  | cons item rest ih =>
    intro fs h
    by_cases hfile : item.type = "file"
    · cases hst : httpFails (api.download item.download_url).status with
      | true => simp [fetchFiles, hfile, hst] at h
      | false =>
        simp only [fetchFiles, hfile, if_true, hst, Bool.false_eq_true, if_false] at h
        cases hr : fetchFiles api rest with
        | error e => rw [hr] at h; cases h
        | ok fs' =>
          rw [hr] at h
          cases h
          rw [ih fs' hr]
          simp [List.filter_cons, hfile]
    · simp only [fetchFiles, hfile, if_false] at h
      rw [ih fs h]
      simp [List.filter_cons, hfile]

/-- C8: the fetch fails with a TransportError carrying the status when the
top-level listing call fails, and when any file entry's download fails; a
successful fetch returns exactly the downloads of the top-level entries of
type file, in order, so directory entries are ignored and no partial list
is ever returned. -/
theorem c8_fetch_failfast (api : GitHubApi) :
    (httpFails api.listingStatus = true →
      fetch_github_content api = Except.error ⟨api.listingStatus⟩) ∧
    ((∃ item ∈ api.listing, item.type = "file" ∧
        httpFails (api.download item.download_url).status = true) →
      ∃ e, fetch_github_content api = Except.error e) ∧
    (∀ fs, fetch_github_content api = Except.ok fs →
      fs = (api.listing.filter (fun item => item.type = "file")).map
        (fun item => ⟨item.name, item.path, (api.download item.download_url).text⟩)) := by
  refine ⟨fun h => by simp [fetch_github_content, h], ?_, ?_⟩
  · intro hex
    cases hls : httpFails api.listingStatus with
    | true => exact ⟨⟨api.listingStatus⟩, by simp [fetch_github_content, hls]⟩
    | false =>
      obtain ⟨e, he⟩ := fetchFiles_error api api.listing hex
      exact ⟨e, by simp [fetch_github_content, hls, he]⟩
  · intro fs h
    cases hls : httpFails api.listingStatus with
    | true => simp [fetch_github_content, hls] at h
    | false =>
      rw [fetch_github_content, hls] at h
      simp only [Bool.false_eq_true, if_false] at h
      exact fetchFiles_ok api api.listing fs h

/-- Witness for C8: a 404 listing aborts the fetch; a 500 file download
aborts the fetch; a successful mixed listing returns the two file entries
and skips the directory. -/
theorem c8_fetch_failfast_witness :
    fetch_github_content apiListingFail = Except.error ⟨404⟩ ∧
    (∃ e, fetch_github_content apiDownloadFail = Except.error e) ∧
    ([⟨"a.md", "a.md", "A"⟩, ⟨"c.py", "c.py", "C"⟩] : List RawFile) =
      (apiMixed.listing.filter (fun item => item.type = "file")).map
        (fun item => ⟨item.name, item.path, (apiMixed.download item.download_url).text⟩) :=
  ⟨(c8_fetch_failfast apiListingFail).1 (by decide),
   (c8_fetch_failfast apiDownloadFail).2.1
     ⟨⟨"a.md", "a.md", "file", "u1"⟩, by decide, by decide, by decide⟩,
   (c8_fetch_failfast apiMixed).2.2 [⟨"a.md", "a.md", "A"⟩, ⟨"c.py", "c.py", "C"⟩]
     (by rfl)⟩

/-! Claim C9 about the Markdown formatting tool. -/

/-- C9: the Markdown-format capability returns exactly the Answer template
applied to its input, for every input string; as a plain total function of
its argument it is pure and cannot fail. -/
theorem c9_markdown_formatter (x : String) :
    markdown_formatter x = "**Answer:** " ++ x := rfl

end CourseReview
